import Mathlib

/-!
Verification of the spread-detection pipeline in `spread_fuse.py`.

The embedding models a decoded RGB image as its dimensions together with a
pixel function, pixel access as the Pillow `getpixel` (negative coordinates
wrap once; out-of-range access is an error, modelled by `Option`), the border
scan loops of `is_spread_candidate` as a tail recursion over the sampled
coordinate list, the merge routine geometrically (the resampling kernel is a
parameter), and the page-sequencing `while` loop both as a fuel-indexed loop
and as the equivalent structural recursion.
-/

namespace SpreadFuse

/-- A decoded RGB image: dimensions plus a pixel map giving `(r, g, b)`. -/
structure Img where
  width : Nat
  height : Nat
  pix : Nat → Nat → Nat × Nat × Nat

/-- Pillow `Image.getpixel`: a negative coordinate wraps once by adding the
corresponding dimension; a coordinate still out of range is an error. -/
def getpixel (img : Img) (x y : Int) : Option (Nat × Nat × Nat) :=
  let xw := if x < 0 then x + img.width else x
  let yw := if y < 0 then y + img.height else y
  if 0 ≤ xw ∧ xw < img.width ∧ 0 ≤ yw ∧ yw < img.height then
    some (img.pix xw.toNat yw.toNat)
  else none

/-- Pixel intensity `avg = (r + g + b) / 3` as an exact rational. -/
def avg (p : Nat × Nat × Nat) : ℚ := ((p.1 : ℚ) + p.2.1 + p.2.2) / 3

/-- The four flags of `is_spread_candidate`, per border:
`hasBlack` is `left/right_border_has_black`, `allBlack` is
`left/right_border_all_black`. -/
structure BorderFlags where
  hasBlack : Bool
  allBlack : Bool
deriving DecidableEq

/-- Flag state at loop entry: no non-white pixel seen yet, all-black so far. -/
def initFlags : BorderFlags := ⟨false, true⟩

/-- One loop body of the border scan: `if avg < white_threshold` record a
non-white pixel; `if avg > black_threshold` the border is not all black.
The comparisons are taken over the integers (`r + g + b < 3 * t` instead of
`(r + g + b) / 3 < t`), which is exact: `r + g + b ≤ 765`, so the float
average is never within rounding distance of an integer threshold it does
not equal; `avg_lt_iff` and `lt_avg_iff` below relate the two forms. -/
def scanPixel (white_threshold black_threshold : Nat) (f : BorderFlags)
    (p : Nat × Nat × Nat) : BorderFlags :=
  { hasBlack := f.hasBlack || decide (p.1 + p.2.1 + p.2.2 < 3 * white_threshold)
    allBlack := f.allBlack && !decide (3 * black_threshold < p.1 + p.2.1 + p.2.2) }

/-- The border-scan loop over a list of sampled coordinates, threading the
flags; a failing pixel access aborts the whole call. -/
def scanStrip (img : Img) (white_threshold black_threshold : Nat) :
    List (Int × Int) → BorderFlags → Option BorderFlags
  | [], f => some f
  | c :: cs, f =>
    match getpixel img c.1 c.2 with
    | none => none
    | some p =>
      scanStrip img white_threshold black_threshold cs
        (scanPixel white_threshold black_threshold f p)

/-- Coordinates of the left strip: `for x in range(border_size): for y in
range(height)`. -/
def leftCoords (img : Img) (border_size : Nat) : List (Int × Int) :=
  (List.range border_size).flatMap fun x =>
    (List.range img.height).map fun (y : Nat) => ((x : Int), (y : Int))

/-- Coordinates of the right strip: `for x in range(width - border_size,
width): for y in range(height)` (the lower bound may be negative). -/
def rightCoords (img : Img) (border_size : Nat) : List (Int × Int) :=
  (List.range border_size).flatMap fun k =>
    (List.range img.height).map fun (y : Nat) =>
      ((img.width : Int) - (border_size : Int) + (k : Int), (y : Int))

/-- `is_spread_candidate`: scan the left strip, then the right strip; if
either border is entirely black the image is not a spread; otherwise it is a
spread candidate iff both borders contain a non-white pixel. -/
def is_spread_candidate (img : Img)
    (border_size white_threshold black_threshold : Nat) : Option Bool :=
  match scanStrip img white_threshold black_threshold
      (leftCoords img border_size) initFlags with
  | none => none
  | some lf =>
    match scanStrip img white_threshold black_threshold
        (rightCoords img border_size) initFlags with
    | none => none
    | some rf =>
      if lf.allBlack || rf.allBlack then some false
      else some (lf.hasBlack && rf.hasBlack)

/-- Modelled from the spec: the `black_ratio` statistic of the spec's
canonical ratio-based classifier variant — the fraction of sampled border
pixels with `avg <= black_threshold`.  The source under `src/` does not
compute this quantity; it implements the all-black veto instead, so this
definition exists only to state the ratio-based claim against the source. -/
def spec_black_fraction (img : Img) (coords : List (Int × Int))
    (black_threshold : Nat) : Option ℚ :=
  match coords.mapM (fun c => getpixel img c.1 c.2) with
  | none => none
  | some ps =>
    some (((ps.countP fun p => decide (p.1 + p.2.1 + p.2.2 ≤ 3 * black_threshold)) : ℚ)
      / (ps.length : ℚ))

/-- `new_height = max(height1, height2)` in `merge_images_horizontally`. -/
def target_height (img1 img2 : Img) : Nat := max img1.height img2.height

/-- The width an input gets on the canvas: `int(width * new_height / height)`
when its height differs from the target, its own width otherwise. -/
def resized_width (img : Img) (new_height : Nat) : Nat :=
  if img.height ≠ new_height then img.width * new_height / img.height
  else img.width

/-- `merge_images_horizontally`: align both inputs to the taller height
(resampling is the parameter `resize`, requested width then height), allocate
a white canvas of the summed widths, paste `img2` (the next page) at offset 0
and `img1` (the current page) at offset `new_width2`, the later paste winning
on overlap. -/
def merge_images_horizontally (resize : Img → Nat → Nat → Img)
    (img1 img2 : Img) : Img :=
  let new_height := target_height img1 img2
  let new_width1 := resized_width img1 new_height
  let img1r := if img1.height ≠ new_height then resize img1 new_width1 new_height
    else img1
  let new_width2 := resized_width img2 new_height
  let img2r := if img2.height ≠ new_height then resize img2 new_width2 new_height
    else img2
  { width := new_width1 + new_width2
    height := new_height
    pix := fun x y =>
      if new_width2 ≤ x ∧ x - new_width2 < img1r.width ∧ y < img1r.height then
        img1r.pix (x - new_width2) y
      else if x < img2r.width ∧ y < img2r.height then
        img2r.pix x y
      else (255, 255, 255) }

/-- One slot of the output sequence of `process_folder_of_images`: a page
passed through unchanged, or two pages merged (current page first, the
consumed next page second). -/
inductive Slot (α : Type) where
  | single (a : α)
  | merged (a b : α)
deriving DecidableEq

/-- The input pages an output slot accounts for, in page order (a merged slot
is named after and led by the current page, with the next page to its left on
the canvas but after it in sequence). -/
def slotPages {α : Type} : Slot α → List α
  | Slot.single a => [a]
  | Slot.merged a b => [a, b]

/-- The page-sequencing loop of `process_folder_of_images` as a structural
recursion on the remaining pages: the last page is passed through; otherwise
the current and next pages are classified and either merged (consuming both)
or the current page is passed through alone. -/
def process_folder_of_images {α : Type} (spread : α → Bool) :
    List α → List (Slot α)
  | [] => []
  | [a] => [Slot.single a]
  | a :: b :: rest =>
    if spread a && spread b then
      Slot.merged a b :: process_folder_of_images spread rest
    else
      Slot.single a :: process_folder_of_images spread (b :: rest)

/-- The same loop in its literal `while i < total_images` form: `fuel` bounds
the number of iterations, `i` is the index, `acc` the reversed output; the
loop fails (returns `none`) only if the fuel runs out before `i` reaches the
end. -/
def processLoop {α : Type} (spread : α → Bool) (files : List α) :
    Nat → Nat → List (Slot α) → Option (List (Slot α))
  | 0, i, acc => if files.length ≤ i then some acc.reverse else none
  | fuel + 1, i, acc =>
    if h : i < files.length then
      if h1 : i < files.length - 1 then
        let a := files.get ⟨i, h⟩
        let b := files.get ⟨i + 1, by omega⟩
        if spread a && spread b then
          processLoop spread files fuel (i + 2) (Slot.merged a b :: acc)
        else
          processLoop spread files fuel (i + 1) (Slot.single a :: acc)
      else
        processLoop spread files fuel (i + 1) (Slot.single (files.get ⟨i, h⟩) :: acc)
    else some acc.reverse

/-- The image-name filter used by `extract_cbz` and `create_cbz_from_folder`:
keep files ending in `.png`, `.jpg` or `.jpeg` (case-insensitive). -/
def isImageFile (f : String) : Bool :=
  f.toLower.endsWith ".png" || f.toLower.endsWith ".jpg"
    || f.toLower.endsWith ".jpeg"

/-- `create_cbz_from_folder` restricted to what is observable here: the list
of files of the output folder that get written into the archive. -/
def create_cbz_entries (files : List String) : List String :=
  files.filter isImageFile

/-- Outcome of `main`, abstracted over the filesystem. -/
inductive MainOutcome where
  | exitUsage
  | exitNotDir
  | exitNoCbz
  | processed (cbzs : List String)
deriving DecidableEq

/-- The process exit code of each `main` outcome: the usage error and the
not-a-folder error call `sys.exit(1)`; finding no `.cbz` calls `sys.exit(0)`;
a completed batch falls off the end of `main` (exit 0). -/
def exitCodeOf : MainOutcome → Nat
  | MainOutcome.exitUsage => 1
  | MainOutcome.exitNotDir => 1
  | MainOutcome.exitNoCbz => 0
  | MainOutcome.processed _ => 0

/-- The argument handling of `main`: `args` is `sys.argv[1:]`, `isdir` the
`os.path.isdir` predicate, `entries` the `os.listdir` of the argument, and
`isValidArchive` whether a path is a readable archive — a predicate `main`
never consults: any non-directory argument is rejected. -/
def main (isValidArchive isdir : String → Bool) (args : List String)
    (entries : List String) : MainOutcome :=
  match args with
  | [] => MainOutcome.exitUsage
  | input_folder :: _ =>
    if isdir input_folder then
      let cbz_files := entries.filter fun f => f.toLower.endsWith ".cbz"
      if cbz_files.isEmpty then MainOutcome.exitNoCbz
      else MainOutcome.processed cbz_files
    else MainOutcome.exitNotDir

/-- Test image: 10×1, left border 3 of 5 sampled pixels black (60 %), the
rest mid-gray, so both borders are non-white and neither is all black. -/
def imgC1 : Img :=
  { width := 10, height := 1
    pix := fun x _ => if x < 3 then (0, 0, 0) else (100, 100, 100) }

/-- Test image: 10×1, left border entirely black, right border mid-gray. -/
def imgLeftBlack : Img :=
  { width := 10, height := 1
    pix := fun x _ => if x < 5 then (0, 0, 0) else (100, 100, 100) }

/-- Test image: 10×1, every pixel mid-gray. -/
def imgGray : Img :=
  { width := 10, height := 1, pix := fun _ _ => (100, 100, 100) }

/-- Test image: 7×1 mid-gray, narrower than `2 * border_size` for the default
`border_size = 5` but at least `border_size` wide. -/
def imgW7 : Img :=
  { width := 7, height := 1, pix := fun _ _ => (100, 100, 100) }

/-- Test image: 3×1 black, narrower than the default `border_size = 5`. -/
def imgNarrow : Img :=
  { width := 3, height := 1, pix := fun _ _ => (0, 0, 0) }

/-- A size-correct stand-in resampler (nearest neighbour), used to
instantiate the resampling parameter in concrete checks. -/
def resizeNN (im : Img) (w h : Nat) : Img :=
  { width := w, height := h
    pix := fun x y => im.pix (x * im.width / w) (y * im.height / h) }

/-- Test image: 1000×1500 with a position-dependent pixel pattern. -/
def imgA : Img :=
  { width := 1000, height := 1500, pix := fun x y => (1, x % 256, y % 256) }

/-- Test image: 800×1500 with a pixel pattern distinct from `imgA`. -/
def imgB : Img :=
  { width := 800, height := 1500, pix := fun x y => (2, x % 256, y % 256) }

/-- Test image: 500×750, half the height of `imgA`, 2:1 aspect ratio. -/
def imgHalf : Img :=
  { width := 500, height := 750, pix := fun x y => (3, x % 256, y % 256) }

lemma avg_lt_iff (p : Nat × Nat × Nat) (t : Nat) :
    avg p < (t : ℚ) ↔ p.1 + p.2.1 + p.2.2 < 3 * t := by
  rw [avg, div_lt_iff₀ (by norm_num : (0 : ℚ) < 3),
    show ((t : ℚ) * 3) = ((3 * t : Nat) : ℚ) by push_cast; ring,
    show ((p.1 : ℚ) + p.2.1 + p.2.2) = ((p.1 + p.2.1 + p.2.2 : Nat) : ℚ) by
      push_cast; ring,
    Nat.cast_lt]

lemma lt_avg_iff (p : Nat × Nat × Nat) (t : Nat) :
    (t : ℚ) < avg p ↔ 3 * t < p.1 + p.2.1 + p.2.2 := by
  rw [avg, lt_div_iff₀ (by norm_num : (0 : ℚ) < 3),
    show ((t : ℚ) * 3) = ((3 * t : Nat) : ℚ) by push_cast; ring,
    show ((p.1 : ℚ) + p.2.1 + p.2.2) = ((p.1 + p.2.1 + p.2.2 : Nat) : ℚ) by
      push_cast; ring,
    Nat.cast_lt]

lemma avg_le_iff (p : Nat × Nat × Nat) (t : Nat) :
    avg p ≤ (t : ℚ) ↔ p.1 + p.2.1 + p.2.2 ≤ 3 * t := by
  rw [← not_lt, lt_avg_iff, not_lt]

lemma getpixel_eq (img : Img) (x y : Nat) (hx : x < img.width)
    (hy : y < img.height) :
    getpixel img (x : Int) (y : Int) = some (img.pix x y) := by
  have hx0 : ¬((x : Int) < 0) := by omega
  have hy0 : ¬((y : Int) < 0) := by omega
  simp only [getpixel, if_neg hx0, if_neg hy0]
  rw [if_pos ⟨by omega, by omega, by omega, by omega⟩]
  simp

lemma mem_leftCoords {img : Img} {bs : Nat} {c : Int × Int} :
    c ∈ leftCoords img bs ↔
      ∃ (x y : Nat), x < bs ∧ y < img.height ∧ c = ((x : Int), (y : Int)) := by
  constructor
  · intro hc
    rw [leftCoords, List.mem_flatMap] at hc
    obtain ⟨x, hx, hc⟩ := hc
    rw [List.mem_map] at hc
    obtain ⟨y, hy, heq⟩ := hc
    exact ⟨x, y, List.mem_range.mp hx, List.mem_range.mp hy, heq.symm⟩
  · rintro ⟨x, y, hx, hy, rfl⟩
    rw [leftCoords, List.mem_flatMap]
    refine ⟨x, List.mem_range.mpr hx, ?_⟩
    rw [List.mem_map]
    exact ⟨y, List.mem_range.mpr hy, rfl⟩

lemma mem_rightCoords {img : Img} {bs : Nat} {c : Int × Int} :
    c ∈ rightCoords img bs ↔
      ∃ (k y : Nat), k < bs ∧ y < img.height ∧
        c = ((img.width : Int) - (bs : Int) + (k : Int), (y : Int)) := by
  constructor
  · intro hc
    rw [rightCoords, List.mem_flatMap] at hc
    obtain ⟨k, hk, hc⟩ := hc
    rw [List.mem_map] at hc
    obtain ⟨y, hy, heq⟩ := hc
    exact ⟨k, y, List.mem_range.mp hk, List.mem_range.mp hy, heq.symm⟩
  · rintro ⟨k, y, hk, hy, rfl⟩
    rw [rightCoords, List.mem_flatMap]
    refine ⟨k, List.mem_range.mpr hk, ?_⟩
    rw [List.mem_map]
    exact ⟨y, List.mem_range.mpr hy, rfl⟩

lemma scanStrip_isSome (img : Img) (wt bt : Nat) :
    ∀ (coords : List (Int × Int)) (f : BorderFlags),
      (scanStrip img wt bt coords f).isSome = true ↔
        ∀ c ∈ coords, (getpixel img c.1 c.2).isSome = true
  | [], f => by simp [scanStrip]
  | c :: cs, f => by
    cases h : getpixel img c.1 c.2 with
    | none => simp [scanStrip, h]
    | some p =>
      simp [scanStrip, h, scanStrip_isSome img wt bt cs (scanPixel wt bt f p)]

lemma scanStrip_hasBlack (img : Img) (wt bt : Nat) :
    ∀ (coords : List (Int × Int)) (f g : BorderFlags),
      scanStrip img wt bt coords f = some g →
      (g.hasBlack = true ↔ (f.hasBlack = true ∨
        ∃ c ∈ coords, ∃ p, getpixel img c.1 c.2 = some p ∧ avg p < (wt : ℚ)))
  | [], f, g => by
    intro h
    simp only [scanStrip, Option.some_inj] at h
    subst h
    simp
  | c :: cs, f, g => by
    intro h
    cases hp : getpixel img c.1 c.2 with
    | none => rw [scanStrip, hp] at h; exact absurd h (by simp)
    | some p =>
      rw [scanStrip, hp] at h
      rw [scanStrip_hasBlack img wt bt cs (scanPixel wt bt f p) g h]
      simp only [scanPixel, Bool.or_eq_true, decide_eq_true_eq,
        List.mem_cons, avg_lt_iff]
      constructor
      · rintro ((hf | hq) | ⟨c', hc', q, hq, hlt⟩)
        · exact Or.inl hf
        · exact Or.inr ⟨c, Or.inl rfl, p, hp, hq⟩
        · exact Or.inr ⟨c', Or.inr hc', q, hq, hlt⟩
      · rintro (hf | ⟨c', hc' | hc', q, hq, hlt⟩)
        · exact Or.inl (Or.inl hf)
        · subst hc'
          rw [hp] at hq
          cases Option.some_inj.mp hq
          exact Or.inl (Or.inr hlt)
        · exact Or.inr ⟨c', hc', q, hq, hlt⟩

lemma scanStrip_allBlack (img : Img) (wt bt : Nat) :
    ∀ (coords : List (Int × Int)) (f g : BorderFlags),
      scanStrip img wt bt coords f = some g →
      (g.allBlack = true ↔ (f.allBlack = true ∧
        ∀ c ∈ coords, ∀ p, getpixel img c.1 c.2 = some p → avg p ≤ (bt : ℚ)))
  | [], f, g => by
    intro h
    simp only [scanStrip, Option.some_inj] at h
    subst h
    simp
  | c :: cs, f, g => by
    intro h
    cases hp : getpixel img c.1 c.2 with
    | none => rw [scanStrip, hp] at h; exact absurd h (by simp)
    | some p =>
      rw [scanStrip, hp] at h
      rw [scanStrip_allBlack img wt bt cs (scanPixel wt bt f p) g h]
      simp only [scanPixel, Bool.and_eq_true, Bool.not_eq_true',
        decide_eq_false_iff_not, not_lt, List.mem_cons, avg_le_iff]
      constructor
      · rintro ⟨⟨hf, hle⟩, hall⟩
        refine ⟨hf, ?_⟩
        rintro c' (hc' | hc') q hq
        · subst hc'
          rw [hp] at hq
          cases Option.some_inj.mp hq
          exact hle
        · exact hall c' hc' q hq
      · rintro ⟨hf, hall⟩
        exact ⟨⟨hf, hall c (Or.inl rfl) p hp⟩,
          fun c' hc' q hq => hall c' (Or.inr hc') q hq⟩

lemma process_flatten {α : Type} (spread : α → Bool) : ∀ l : List α,
    (process_folder_of_images spread l).flatMap slotPages = l
  | [] => by simp [process_folder_of_images]
  | [a] => by simp [process_folder_of_images, slotPages]
  | a :: b :: rest => by
    by_cases h : (spread a && spread b) = true
    · simp [process_folder_of_images, h, slotPages, process_flatten spread rest]
    · simp [process_folder_of_images, h, slotPages,
        process_flatten spread (b :: rest)]

lemma process_length_le {α : Type} (spread : α → Bool) : ∀ l : List α,
    (process_folder_of_images spread l).length ≤ l.length
  | [] => by simp [process_folder_of_images]
  | [a] => by simp [process_folder_of_images]
  | a :: b :: rest => by
    by_cases h : (spread a && spread b) = true
    · have ih := process_length_le spread rest
      simp only [process_folder_of_images, if_pos h, List.length_cons]
      omega
    · have ih := process_length_le spread (b :: rest)
      simp only [process_folder_of_images, if_neg h, List.length_cons]
      simp only [List.length_cons] at ih
      omega

lemma process_length_ge {α : Type} (spread : α → Bool) : ∀ l : List α,
    l.length ≤ 2 * (process_folder_of_images spread l).length
  | [] => by simp [process_folder_of_images]
  | [a] => by simp [process_folder_of_images]
  | a :: b :: rest => by
    by_cases h : (spread a && spread b) = true
    · have ih := process_length_ge spread rest
      simp only [process_folder_of_images, if_pos h, List.length_cons]
      omega
    · have ih := process_length_ge spread (b :: rest)
      simp only [process_folder_of_images, if_neg h, List.length_cons]
      simp only [List.length_cons] at ih
      omega

lemma process_ne_nil {α : Type} (spread : α → Bool) : ∀ l : List α,
    l ≠ [] → process_folder_of_images spread l ≠ []
  | [], h => absurd rfl h
  | [a], _ => by simp [process_folder_of_images]
  | a :: b :: rest, _ => by
    by_cases h : (spread a && spread b) = true <;>
      simp [process_folder_of_images, h]

lemma process_last {α : Type} (spread : α → Bool) : ∀ (l : List α) (x : α),
    l.getLast? = some x →
    (process_folder_of_images spread l).getLast? = some (Slot.single x) ∨
      ∃ w, (process_folder_of_images spread l).getLast? = some (Slot.merged w x)
  | [], x => by simp
  | [a], x => by
    intro h
    simp only [List.getLast?_singleton, Option.some_inj] at h
    subst h
    left
    simp [process_folder_of_images]
  | a :: b :: rest, x => by
    intro h
    by_cases hs : (spread a && spread b) = true
    · cases rest with
      | nil =>
        simp only [List.getLast?_cons_cons, List.getLast?_singleton,
          Option.some_inj] at h
        subst h
        right
        exact ⟨a, by simp [process_folder_of_images, hs]⟩
      | cons c cs =>
        have h' : (c :: cs).getLast? = some x := by
          simpa [List.getLast?_cons_cons] using h
        have hne := process_ne_nil spread (c :: cs) (by simp)
        obtain ⟨s, ss, hss⟩ :=
          List.exists_cons_of_ne_nil hne
        rcases process_last spread (c :: cs) x h' with h1 | ⟨w, h1⟩
        · left
          simp only [process_folder_of_images, if_pos hs]
          rw [hss] at h1 ⊢
          simpa [List.getLast?_cons_cons] using h1
        · right
          refine ⟨w, ?_⟩
          simp only [process_folder_of_images, if_pos hs]
          rw [hss] at h1 ⊢
          simpa [List.getLast?_cons_cons] using h1
    · have h' : (b :: rest).getLast? = some x := by
        simpa [List.getLast?_cons_cons] using h
      have hne := process_ne_nil spread (b :: rest) (by simp)
      obtain ⟨s, ss, hss⟩ := List.exists_cons_of_ne_nil hne
      rcases process_last spread (b :: rest) x h' with h1 | ⟨w, h1⟩
      · left
        simp only [process_folder_of_images, if_neg hs]
        rw [hss] at h1 ⊢
        simpa [List.getLast?_cons_cons] using h1
      · right
        refine ⟨w, ?_⟩
        simp only [process_folder_of_images, if_neg hs]
        rw [hss] at h1 ⊢
        simpa [List.getLast?_cons_cons] using h1

lemma processLoop_eq {α : Type} (spread : α → Bool) (files : List α) :
    ∀ (fuel i : Nat) (acc : List (Slot α)), files.length ≤ i + fuel →
      processLoop spread files fuel i acc =
        some (acc.reverse ++ process_folder_of_images spread (files.drop i)) := by
  intro fuel
  induction fuel with
  | zero =>
    intro i acc h
    have hi : files.length ≤ i := by omega
    rw [processLoop, if_pos hi, List.drop_eq_nil_of_le hi]
    simp [process_folder_of_images]
  | succ fuel ih =>
    intro i acc h
    by_cases hi : i < files.length
    · have hdrop : files.drop i = files[i] :: files.drop (i + 1) :=
        List.drop_eq_getElem_cons hi
      by_cases hi1 : i < files.length - 1
      · have hi2 : i + 1 < files.length := by omega
        have hdrop2 : files.drop (i + 1) = files[i + 1] :: files.drop (i + 2) :=
          List.drop_eq_getElem_cons hi2
        rw [processLoop]
        rw [dif_pos hi, dif_pos hi1]
        by_cases hs : (spread (files.get ⟨i, hi⟩) && spread (files.get ⟨i + 1, by omega⟩)) = true
        · rw [if_pos hs, ih (i + 2) _ (by omega)]
          rw [hdrop, hdrop2, process_folder_of_images]
          rw [if_pos (by simpa [List.get_eq_getElem] using hs)]
          simp [List.get_eq_getElem]
        · rw [if_neg hs, ih (i + 1) _ (by omega)]
          rw [hdrop, hdrop2, process_folder_of_images]
          rw [if_neg (by simpa [List.get_eq_getElem] using hs)]
          rw [← hdrop2]
          simp [List.get_eq_getElem]
      · have hlen : files.length = i + 1 := by omega
        rw [processLoop]
        rw [dif_pos hi, dif_neg hi1, ih (i + 1) _ (by omega)]
        rw [List.drop_eq_nil_of_le (by omega), hdrop,
          List.drop_eq_nil_of_le (by omega)]
        simp [process_folder_of_images, List.get_eq_getElem]
    · rw [processLoop, dif_neg hi, List.drop_eq_nil_of_le (by omega)]
      simp [process_folder_of_images]

/-- C3: for every input list of pages, flattening the output slots of
`process_folder_of_images` back to pages returns exactly the input list — so
every input page occupies exactly one output slot (standalone or one half of
exactly one merge), relative order is preserved, and a page consumed as a
merge partner sits inside its merge slot and is never re-examined — and the
output has at most as many slots as there are input pages. -/
theorem c3_order_partition {α : Type} (spread : α → Bool) (l : List α) :
    (process_folder_of_images spread l).flatMap slotPages = l ∧
    (process_folder_of_images spread l).length ≤ l.length :=
  ⟨process_flatten spread l, process_length_le spread l⟩

/-- C9: an empty page list yields an empty output list (no error), and the
packing step over the resulting empty folder adds no entries to the
archive. -/
theorem c9_empty_input :
    (∀ (α : Type) (spread : α → Bool),
      process_folder_of_images spread ([] : List α) = []) ∧
    create_cbz_entries [] = [] :=
  ⟨fun _ _ => rfl, rfl⟩

/-- C10: the `while` loop of `process_folder_of_images` terminates within
`n` iterations on an `n`-page list — with fuel `n` it returns `some` result,
equal to the single-pass recursion — and the output has between `⌈n/2⌉`
(i.e. `n ≤ 2·out`) and `n` entries. -/
theorem c10_single_pass {α : Type} (spread : α → Bool) (files : List α) :
    processLoop spread files files.length 0 [] =
      some (process_folder_of_images spread files) ∧
    files.length ≤ 2 * (process_folder_of_images spread files).length ∧
    (process_folder_of_images spread files).length ≤ files.length := by
  refine ⟨?_, process_length_ge spread files, process_length_le spread files⟩
  simpa using processLoop_eq spread files files.length 0 [] (by omega)

/-- C8 counterexample: with a classifier that accepts both pages of a
two-page list, the page at the last index ends up inside a merged slot — it
is not passed through, so \"the page at the last index is always passed
through unchanged and never merged\" fails. -/
theorem c8_counterexample :
    process_folder_of_images (fun _ => true) [(0 : Nat), 1] = [Slot.merged 0 1] ∧
    Slot.single 1 ∉ process_folder_of_images (fun _ => true) [(0 : Nat), 1] := by
  decide

/-- C8 (amended): the final page of a non-empty list is either passed
through as the last output slot or consumed as the merge partner of the last
(merged) output slot; in particular a single-page input always yields exactly
one passthrough output page, regardless of its border characteristics. -/
theorem c8_last_page {α : Type} (spread : α → Bool) (a : α) (l : List α)
    (x : α) (h : l.getLast? = some x) :
    process_folder_of_images spread [a] = [Slot.single a] ∧
    ((process_folder_of_images spread l).getLast? = some (Slot.single x) ∨
      ∃ w, (process_folder_of_images spread l).getLast? =
        some (Slot.merged w x)) :=
  ⟨by simp [process_folder_of_images], process_last spread l x h⟩

/-- Witness for C8: instantiation at a one-page list and at a fully merging
two-page list. -/
theorem c8_last_page_witness :
    process_folder_of_images (fun _ => true) [(5 : Nat)] = [Slot.single 5] ∧
    ((process_folder_of_images (fun _ => true) [(0 : Nat), 1]).getLast? =
        some (Slot.single 1) ∨
      ∃ w, (process_folder_of_images (fun _ => true) [(0 : Nat), 1]).getLast? =
        some (Slot.merged w 1)) :=
  c8_last_page (fun _ => true) 5 [0, 1] 1 rfl

/-- C7 counterexample: a single-archive argument — valid as an archive under
the (never consulted) validity predicate — makes `main` take the
not-a-folder branch and exit with code 1, so the CLI does not accept a valid
single archive path. -/
theorem c7_counterexample :
    main (fun _ => true) (fun _ => false) ["comic.cbz"] [] =
      MainOutcome.exitNotDir ∧
    exitCodeOf (main (fun _ => true) (fun _ => false) ["comic.cbz"] []) = 1 :=
  ⟨rfl, rfl⟩

/-- C7 (amended): `main` exits non-zero exactly when it is given no argument
or the argument is not a directory — archive validity is never consulted, so
a valid single-archive path is rejected like any other non-directory. -/
theorem c7_directory_only (isValidArchive isdir : String → Bool)
    (args entries : List String) :
    exitCodeOf (main isValidArchive isdir args entries) ≠ 0 ↔
      (args = [] ∨ ∃ a rest, args = a :: rest ∧ isdir a = false) := by
  cases args with
  | nil => simp [main, exitCodeOf]
  | cons a rest =>
    by_cases h : isdir a = true
    · simp only [main, if_pos h]
      constructor
      · intro hc
        exfalso
        revert hc
        split <;> simp [exitCodeOf]
      · rintro (hnil | ⟨a', rest', heq, hdir⟩)
        · exact absurd hnil (by simp)
        · obtain ⟨rfl, rfl⟩ := List.cons.inj heq
          simp [h] at hdir
    · have h' : isdir a = false := by simpa using h
      simp [main, h', exitCodeOf]

/-- C1 counterexample: an image whose sampled left border is 60 % black
pixels (`black_ratio = 3/5 > 0.45`, so also at least 46 % black) is still
classified as a spread candidate by the source: the code vetoes only a
border that is *entirely* black, not one whose black-pixel ratio exceeds
0.45. -/
theorem c1_counterexample :
    spec_black_fraction imgC1 (leftCoords imgC1 5) 20 = some (3 / 5) ∧
    (45 / 100 : ℚ) < 3 / 5 ∧
    is_spread_candidate imgC1 5 250 20 = some true := by
  refine ⟨?_, by norm_num, by decide⟩
  have h : (leftCoords imgC1 5).mapM (fun c => getpixel imgC1 c.1 c.2) =
      some [(0, 0, 0), (0, 0, 0), (0, 0, 0), (100, 100, 100), (100, 100, 100)] :=
    rfl
  rw [spec_black_fraction, h]
  norm_num

/-- C1 (amended): if every sampled pixel of the left border — or of the
right border — has `avg ≤ black_threshold` (the border is entirely black),
`is_spread_candidate` returns `false` regardless of the opposite edge; a
border that is only partially (e.g. 46 %) black does not veto. -/
theorem c1_all_black_border_veto (img : Img) (bs wt bt : Nat)
    (lf rf : BorderFlags)
    (hl : scanStrip img wt bt (leftCoords img bs) initFlags = some lf)
    (hr : scanStrip img wt bt (rightCoords img bs) initFlags = some rf)
    (hveto :
      (∀ c ∈ leftCoords img bs, ∀ p, getpixel img c.1 c.2 = some p →
        avg p ≤ (bt : ℚ)) ∨
      (∀ c ∈ rightCoords img bs, ∀ p, getpixel img c.1 c.2 = some p →
        avg p ≤ (bt : ℚ))) :
    is_spread_candidate img bs wt bt = some false := by
  have hv : lf.allBlack = true ∨ rf.allBlack = true := by
    rcases hveto with hv | hv
    · exact Or.inl ((scanStrip_allBlack img wt bt _ _ _ hl).mpr ⟨rfl, hv⟩)
    · exact Or.inr ((scanStrip_allBlack img wt bt _ _ _ hr).mpr ⟨rfl, hv⟩)
  simp only [is_spread_candidate, hl, hr]
  rcases hv with hv | hv <;> simp [hv]

/-- Witness for C1: an image whose whole left border is black is rejected. -/
theorem c1_all_black_border_veto_witness :
    is_spread_candidate imgLeftBlack 5 250 20 = some false := by
  refine c1_all_black_border_veto imgLeftBlack 5 250 20 ⟨true, true⟩
    ⟨true, false⟩ (by decide) (by decide) (Or.inl ?_)
  intro c hc p hp
  obtain ⟨x, y, hx, hy, rfl⟩ := mem_leftCoords.mp hc
  rw [getpixel_eq imgLeftBlack x y (show x < 10 by omega) hy] at hp
  cases Option.some_inj.mp hp
  show avg (imgLeftBlack.pix x y) ≤ ((20 : Nat) : ℚ)
  rw [show imgLeftBlack.pix x y = (0, 0, 0) from by
    simp [imgLeftBlack, if_pos hx], avg_le_iff]
  decide

/-- C2: given that both border scans complete and neither border triggers
the all-black veto, `is_spread_candidate` returns `true` iff both the left
and the right sampled border contain at least one pixel with
`avg < white_threshold`; and an image whose left border pixels all have
`avg ≥ white_threshold` is classified `false`. -/
theorem c2_nonwhite_both_edges (img : Img) (bs wt bt : Nat)
    (lf rf : BorderFlags)
    (hl : scanStrip img wt bt (leftCoords img bs) initFlags = some lf)
    (hr : scanStrip img wt bt (rightCoords img bs) initFlags = some rf)
    (hvl : lf.allBlack = false) (hvr : rf.allBlack = false) :
    (is_spread_candidate img bs wt bt = some true ↔
      ((∃ c ∈ leftCoords img bs, ∃ p, getpixel img c.1 c.2 = some p ∧
          avg p < (wt : ℚ)) ∧
       (∃ c ∈ rightCoords img bs, ∃ p, getpixel img c.1 c.2 = some p ∧
          avg p < (wt : ℚ)))) ∧
    ((∀ c ∈ leftCoords img bs, ∀ p, getpixel img c.1 c.2 = some p →
        (wt : ℚ) ≤ avg p) →
      is_spread_candidate img bs wt bt = some false) := by
  have e : is_spread_candidate img bs wt bt =
      some (lf.hasBlack && rf.hasBlack) := by
    simp only [is_spread_candidate, hl, hr, hvl, hvr]
    simp
  have hLiff : lf.hasBlack = true ↔
      ∃ c ∈ leftCoords img bs, ∃ p, getpixel img c.1 c.2 = some p ∧
        avg p < (wt : ℚ) := by
    rw [scanStrip_hasBlack img wt bt _ _ _ hl]
    simp [initFlags]
  have hRiff : rf.hasBlack = true ↔
      ∃ c ∈ rightCoords img bs, ∃ p, getpixel img c.1 c.2 = some p ∧
        avg p < (wt : ℚ) := by
    rw [scanStrip_hasBlack img wt bt _ _ _ hr]
    simp [initFlags]
  constructor
  · rw [e]
    simp only [Option.some.injEq, Bool.and_eq_true]
    rw [hLiff, hRiff]
  · intro hall
    have hLfalse : lf.hasBlack = false := by
      cases hb : lf.hasBlack
      · rfl
      · obtain ⟨c, hc, p, hp, hlt⟩ := hLiff.mp hb
        exact absurd hlt (not_lt.mpr (hall c hc p hp))
    rw [e, hLfalse]
    simp

/-- Witness for C2: an all-gray image has non-white pixels on both sampled
borders, no veto, and is classified as a spread candidate. -/
theorem c2_nonwhite_both_edges_witness :
    is_spread_candidate imgGray 5 250 20 = some true :=
  (c2_nonwhite_both_edges imgGray 5 250 20 ⟨true, false⟩ ⟨true, false⟩
      (by decide) (by decide) rfl rfl).1.mpr
    ⟨⟨((0 : Int), (0 : Int)), by decide, (100, 100, 100), rfl,
        (avg_lt_iff (100, 100, 100) 250).mpr (by decide)⟩,
     ⟨((5 : Int), (0 : Int)), by decide, (100, 100, 100), rfl,
        (avg_lt_iff (100, 100, 100) 250).mpr (by decide)⟩⟩

/-- C6 counterexample: an image narrower than `border_size` (width 3 with
the default `border_size = 5`, hence also narrower than `2 * border_size`)
makes `is_spread_candidate` fail with a pixel-access error rather than
complete: the left loop asks for column 3 of a 3-pixel-wide image. -/
theorem c6_counterexample :
    imgNarrow.width < 2 * 5 ∧ is_spread_candidate imgNarrow 5 250 20 = none := by
  decide

/-- C6 (amended): whenever `border_size ≤ width` — in particular for every
width in `[border_size, 2·border_size)`, where the two strips overlap — both
border scans sample their full strips successfully and
`is_spread_candidate` completes without error; but an image narrower than
`border_size` itself raises an out-of-range pixel access. -/
theorem c6_overlapping_strips_ok (img : Img) (bs wt bt : Nat)
    (h : bs ≤ img.width) :
    (scanStrip img wt bt (leftCoords img bs) initFlags).isSome = true ∧
    (scanStrip img wt bt (rightCoords img bs) initFlags).isSome = true ∧
    (is_spread_candidate img bs wt bt).isSome = true := by
  have hl : (scanStrip img wt bt (leftCoords img bs) initFlags).isSome = true := by
    rw [scanStrip_isSome]
    intro c hc
    obtain ⟨x, y, hx, hy, rfl⟩ := mem_leftCoords.mp hc
    rw [getpixel_eq img x y (by omega) hy]
    rfl
  have hr : (scanStrip img wt bt (rightCoords img bs) initFlags).isSome = true := by
    rw [scanStrip_isSome]
    intro c hc
    obtain ⟨k, y, hk, hy, rfl⟩ := mem_rightCoords.mp hc
    have hco : ((img.width : Int) - (bs : Int) + (k : Int)) =
        ((img.width - bs + k : Nat) : Int) := by omega
    rw [hco, getpixel_eq img (img.width - bs + k) y (by omega) hy]
    rfl
  refine ⟨hl, hr, ?_⟩
  obtain ⟨lf, hlf⟩ := Option.isSome_iff_exists.mp hl
  obtain ⟨rf, hrf⟩ := Option.isSome_iff_exists.mp hr
  simp only [is_spread_candidate, hlf, hrf]
  split <;> rfl

/-- Witness for C6: a 7-pixel-wide image (narrower than `2 * 5`, the strips
overlap) is classified without error. -/
theorem c6_overlapping_strips_ok_witness :
    imgW7.width < 2 * 5 ∧ (is_spread_candidate imgW7 5 250 20).isSome = true :=
  ⟨by decide, (c6_overlapping_strips_ok imgW7 5 250 20 (by decide)).2.2⟩

/-- C4: merging two images of equal height (no resampling happens in either
branch) yields a canvas of width the sum of the two widths at the common
height, with the `next` image (`img2`) occupying columns `[0, width2)` with
its own pixels and the `current` image (`img1`) occupying columns
`[width2, width2 + width1)` immediately to its right. -/
theorem c4_equal_height_merge (resize : Img → Nat → Nat → Img)
    (img1 img2 : Img) (h : img1.height = img2.height) :
    (merge_images_horizontally resize img1 img2).width =
      img1.width + img2.width ∧
    (merge_images_horizontally resize img1 img2).height = img1.height ∧
    (∀ x y, x < img2.width → y < img2.height →
      (merge_images_horizontally resize img1 img2).pix x y = img2.pix x y) ∧
    (∀ x y, img2.width ≤ x → x < img2.width + img1.width → y < img1.height →
      (merge_images_horizontally resize img1 img2).pix x y =
        img1.pix (x - img2.width) y) := by
  have hH : target_height img1 img2 = img1.height := by
    simp [target_height, h]
  have h1 : ¬(img1.height ≠ target_height img1 img2) := by
    rw [hH]
    simp
  have h2 : ¬(img2.height ≠ target_height img1 img2) := by
    rw [hH, h]
    simp
  have hw1 : resized_width img1 (target_height img1 img2) = img1.width := by
    rw [resized_width, if_neg h1]
  have hw2 : resized_width img2 (target_height img1 img2) = img2.width := by
    rw [resized_width, if_neg h2]
  have hmerge : merge_images_horizontally resize img1 img2 =
      { width := img1.width + img2.width
        height := img1.height
        pix := fun x y =>
          if img2.width ≤ x ∧ x - img2.width < img1.width ∧ y < img1.height then
            img1.pix (x - img2.width) y
          else if x < img2.width ∧ y < img2.height then
            img2.pix x y
          else (255, 255, 255) } := by
    rw [merge_images_horizontally]
    rw [if_neg h1, if_neg h2, hw1, hw2, hH]
  rw [hmerge]
  refine ⟨rfl, rfl, ?_, ?_⟩
  · intro x y hx hy
    show (if img2.width ≤ x ∧ x - img2.width < img1.width ∧ y < img1.height then
        img1.pix (x - img2.width) y
      else if x < img2.width ∧ y < img2.height then img2.pix x y
      else (255, 255, 255)) = img2.pix x y
    rw [if_neg (by omega), if_pos ⟨hx, hy⟩]
  · intro x y hx hx2 hy
    show (if img2.width ≤ x ∧ x - img2.width < img1.width ∧ y < img1.height then
        img1.pix (x - img2.width) y
      else if x < img2.width ∧ y < img2.height then img2.pix x y
      else (255, 255, 255)) = img1.pix (x - img2.width) y
    rw [if_pos ⟨hx, by omega, hy⟩]

/-- Witness for C4: a 1000×1500 current page with an 800×1500 next page
yields an 1800×1500 canvas, next-page content at x = 10 and current-page
content at x = 900 (column 100 of the current page). -/
theorem c4_equal_height_merge_witness :
    (merge_images_horizontally resizeNN imgA imgB).width = 1800 ∧
    (merge_images_horizontally resizeNN imgA imgB).height = 1500 ∧
    (merge_images_horizontally resizeNN imgA imgB).pix 10 20 = imgB.pix 10 20 ∧
    (merge_images_horizontally resizeNN imgA imgB).pix 900 20 =
      imgA.pix 100 20 := by
  have h := c4_equal_height_merge resizeNN imgA imgB rfl
  exact ⟨h.1, h.2.1, h.2.2.1 10 20 (by decide) (by decide),
    h.2.2.2 900 20 (by decide) (by decide) (by decide)⟩

lemma merge_pix (resize : Img → Nat → Nat → Img) (img1 img2 : Img)
    (X y : Nat) :
    (merge_images_horizontally resize img1 img2).pix X y =
      (let H := target_height img1 img2
       let img1r := if img1.height ≠ H then
         resize img1 (resized_width img1 H) H else img1
       let nw2 := resized_width img2 H
       let img2r := if img2.height ≠ H then resize img2 nw2 H else img2
       if nw2 ≤ X ∧ X - nw2 < img1r.width ∧ y < img1r.height then
         img1r.pix (X - nw2) y
       else if X < img2r.width ∧ y < img2r.height then
         img2r.pix X y
       else (255, 255, 255)) := rfl

/-- C5: the merge target height is the maximum of the two input heights; an
input whose height differs is resized to the target height with width
`width * target / height` (the aspect-ratio-scaling formula, integer
truncation), while an input already at the target height keeps its width and
its pixels are pasted untouched; the canvas width is the sum of the two
resulting widths.  Stated for any size-correct resampler. -/
theorem c5_resize_geometry (resize : Img → Nat → Nat → Img)
    (hres : ∀ im w h, (resize im w h).width = w ∧ (resize im w h).height = h)
    (img1 img2 : Img) :
    (merge_images_horizontally resize img1 img2).height =
      target_height img1 img2 ∧
    (merge_images_horizontally resize img1 img2).width =
      resized_width img1 (target_height img1 img2) +
        resized_width img2 (target_height img1 img2) ∧
    (img1.height = target_height img1 img2 →
      ∀ x y, x < img1.width → y < img1.height →
        (merge_images_horizontally resize img1 img2).pix
          (resized_width img2 (target_height img1 img2) + x) y =
          img1.pix x y) ∧
    (img2.height = target_height img1 img2 →
      ∀ x y, x < img2.width → y < img2.height →
        (merge_images_horizontally resize img1 img2).pix x y =
          img2.pix x y) ∧
    (img1.height ≠ target_height img1 img2 →
      ∀ x y, x < resized_width img1 (target_height img1 img2) →
        y < target_height img1 img2 →
        (merge_images_horizontally resize img1 img2).pix
          (resized_width img2 (target_height img1 img2) + x) y =
          (resize img1 (resized_width img1 (target_height img1 img2))
            (target_height img1 img2)).pix x y) ∧
    (img2.height ≠ target_height img1 img2 →
      ∀ x y, x < resized_width img2 (target_height img1 img2) →
        y < target_height img1 img2 →
        (merge_images_horizontally resize img1 img2).pix x y =
          (resize img2 (resized_width img2 (target_height img1 img2))
            (target_height img1 img2)).pix x y) := by
  refine ⟨rfl, rfl, ?_, ?_, ?_, ?_⟩
  · intro hH1 x y hx hy
    have h1 : ¬(img1.height ≠ target_height img1 img2) := by simp [hH1]
    rw [merge_pix]
    simp only [if_neg h1]
    rw [if_pos ⟨Nat.le_add_right _ _, by omega, hy⟩,
      Nat.add_sub_cancel_left]
  · intro hH2 x y hx hy
    have h2 : ¬(img2.height ≠ target_height img1 img2) := by simp [hH2]
    have hnw2 : resized_width img2 (target_height img1 img2) = img2.width := by
      rw [resized_width, if_neg h2]
    rw [merge_pix]
    simp only [if_neg h2, hnw2]
    rw [if_neg fun hcon => absurd hcon.1 (by omega), if_pos ⟨hx, hy⟩]
  · intro hne1 x y hx hy
    rw [merge_pix]
    simp only [if_pos hne1]
    have hw := (hres img1 (resized_width img1 (target_height img1 img2))
      (target_height img1 img2)).1
    have hh := (hres img1 (resized_width img1 (target_height img1 img2))
      (target_height img1 img2)).2
    rw [if_pos ⟨Nat.le_add_right _ _, by rw [hw]; omega, by rw [hh]; exact hy⟩,
      Nat.add_sub_cancel_left]
  · intro hne2 x y hx hy
    rw [merge_pix]
    simp only [if_pos hne2]
    have hw := (hres img2 (resized_width img2 (target_height img1 img2))
      (target_height img1 img2)).1
    have hh := (hres img2 (resized_width img2 (target_height img1 img2))
      (target_height img1 img2)).2
    rw [if_neg fun hcon => absurd hcon.1 (by omega),
      if_pos ⟨by rw [hw]; exact hx, by rw [hh]; exact hy⟩]

/-- Witness for C5: merging a 1000×1500 current page with a 500×750 next
page scales the latter to width 1000 (2:1 aspect ratio preserved at height
1500) and produces a 2000×1500 canvas with the current page untouched at
offset 1000. -/
theorem c5_resize_geometry_witness :
    resized_width imgHalf (target_height imgA imgHalf) = 1000 ∧
    (merge_images_horizontally resizeNN imgA imgHalf).width = 2000 ∧
    (merge_images_horizontally resizeNN imgA imgHalf).height = 1500 ∧
    (merge_images_horizontally resizeNN imgA imgHalf).pix (1000 + 7) 11 =
      imgA.pix 7 11 ∧
    (merge_images_horizontally resizeNN imgA imgHalf).pix 5 11 =
      (resizeNN imgHalf 1000 1500).pix 5 11 := by
  have h := c5_resize_geometry resizeNN (fun _ _ _ => ⟨rfl, rfl⟩) imgA imgHalf
  exact ⟨by decide, h.2.1, h.1, h.2.2.1 rfl 7 11 (by decide) (by decide),
    h.2.2.2.2.2 (by decide) 5 11 (by decide) (by decide)⟩

end SpreadFuse
